import Mathlib

/-!
Verification of the Yelp happy-hour search pipeline.

The program under verification has three sequential stages:
a paginator (`search_businesses`), an extractor (`extract_business_info`)
and a writer (`save_to_json`), plus a miles-to-meters radius conversion.

The paginator is modelled generically over the type of result records:
the remote service is a function from the request index (0, 1, 2, ...)
to the response it returns for that request.  The loop is embedded with
an explicit fuel parameter; the development proves that fuel 1001 is
always sufficient, which is exactly the termination property of the
source loop.
-/

namespace YelpHH

/-- A service response, as consumed by the loop body: `status` is the HTTP
status code, `businesses` models `data.get("businesses", [])` and `total`
models `data.get("total", 0)` of the decoded JSON body. -/
structure Response (α : Type) where
  status : Nat
  businesses : List α
  total : Int

/-- Observable outcome of a run of the pagination loop: the accumulated
`records` (the returned list) and the `offsets` sent, one per request,
in request order. -/
structure SearchOutcome (α : Type) where
  records : List α
  offsets : List Nat
deriving Repr

/-- One step of the `while True` loop of `search_businesses`, with fuel.
Mirrors the source: on a 200 response it breaks on an empty page, extends
the accumulator, breaks once `total_fetched >= total or total_fetched >= 1000`,
otherwise advances `offset` by `limit` and loops; on any other status it
breaks immediately.  `none` means the fuel ran out before the loop broke. -/
def searchGo {α : Type} (svc : Nat → Response α) (limit : Nat) :
    Nat → Nat → Nat → Nat → List α → List Nat → Option (SearchOutcome α)
  | 0, _, _, _, _, _ => none
  | fuel + 1, reqIdx, offset, total_fetched, acc, offs =>
    if (svc reqIdx).status = 200 then
      if (svc reqIdx).businesses.isEmpty then
        some ⟨acc, offs ++ [offset]⟩
      else
        if ((svc reqIdx).total ≤ ((total_fetched + (svc reqIdx).businesses.length : Nat) : Int)
            ∨ 1000 ≤ total_fetched + (svc reqIdx).businesses.length) then
          some ⟨acc ++ (svc reqIdx).businesses, offs ++ [offset]⟩
        else
          searchGo svc limit fuel (reqIdx + 1) (offset + limit)
            (total_fetched + (svc reqIdx).businesses.length)
            (acc ++ (svc reqIdx).businesses) (offs ++ [offset])
    else
      some ⟨acc, offs ++ [offset]⟩

/-- The pagination loop of `search_businesses`, starting from offset 0 with
an empty accumulator.  Fuel 1001 is shown below to always suffice. -/
def search_businesses {α : Type} (svc : Nat → Response α) (limit : Nat) :
    Option (SearchOutcome α) :=
  searchGo svc limit 1001 0 0 0 [] []

/-- The records contributed by request `i`: the page on a 200 response,
nothing otherwise (on an error the loop discards the page and breaks). -/
def effPage {α : Type} (svc : Nat → Response α) (i : Nat) : List α :=
  if (svc i).status = 200 then (svc i).businesses else []

/-- Cumulative number of records fetched by the first `k` requests. -/
def cumFetched {α : Type} (svc : Nat → Response α) : Nat → Nat
  | 0 => 0
  | k + 1 => cumFetched svc k + (effPage svc k).length

/-- Concatenation of the records fetched by the first `k` requests. -/
def flatPages {α : Type} (svc : Nat → Response α) : Nat → List α
  | 0 => []
  | k + 1 => flatPages svc k ++ effPage svc k

/-- Offsets sent by the first `k` requests: `0, limit, 2*limit, ...`. -/
def offsetsUpTo (limit : Nat) : Nat → List Nat
  | 0 => []
  | k + 1 => offsetsUpTo limit k ++ [limit * k]

/-- Request `i` lets the loop continue: success status, non-empty page, and
the cumulative count after the page is below both the reported total and
the 1000-record cap. -/
def continuesAt {α : Type} (svc : Nat → Response α) (i : Nat) : Prop :=
  (svc i).status = 200 ∧ (svc i).businesses ≠ [] ∧
    ((cumFetched svc (i + 1) : Nat) : Int) < (svc i).total ∧
    cumFetched svc (i + 1) < 1000

/-- Request `i` makes the loop break: non-success status, or one of the
three termination conditions of the source. -/
def stopsAt {α : Type} (svc : Nat → Response α) (i : Nat) : Prop :=
  (svc i).status ≠ 200 ∨ (svc i).businesses = [] ∨
    (svc i).total ≤ ((cumFetched svc (i + 1) : Nat) : Int) ∨
    1000 ≤ cumFetched svc (i + 1)

/-- Number of records in a loop outcome (0 when the fuel ran out). -/
def recordCount {α : Type} (o : Option (SearchOutcome α)) : Nat :=
  match o with
  | none => 0
  | some out => out.records.length

/-- Number of requests issued in a loop outcome (0 when the fuel ran out). -/
def requestCount {α : Type} (o : Option (SearchOutcome α)) : Nat :=
  match o with
  | none => 0
  | some out => out.offsets.length

/-- Service of the spec's two-page scenario: `total = 3`, first page of two
records, second page of one record. -/
def svcScenario3 : Nat → Response Nat := fun i =>
  if i = 0 then ⟨200, [10, 20], 3⟩
  else if i = 1 then ⟨200, [30], 3⟩
  else ⟨200, [], 0⟩

/-- A service whose pages each hold 600 records with `total = 2000`: the
second page pushes the accumulated count from 600 to 1200, past the cap. -/
def svcOverCap : Nat → Response Nat := fun _ => ⟨200, List.replicate 600 0, 2000⟩

/-- A service that always answers 200 with an empty page. -/
def svcEmptyW : Nat → Response Nat := fun _ => ⟨200, [], 5⟩

/-- A service whose first request succeeds with one record and whose second
request fails with HTTP 500. -/
def svcFailW : Nat → Response Nat := fun i =>
  if i = 0 then ⟨200, [7], 5⟩ else ⟨500, [], 0⟩

/-- A service that always answers with status 201 (a non-200 success code). -/
def svcStatus201 : Nat → Response Nat := fun _ => ⟨201, [3, 4], 10⟩

/-- JSON-decoded Python values, as held in the raw records: `null` models
Python `None`; numeric field values are modelled as integers. -/
inductive JValue where
  | null : JValue
  | bool : Bool → JValue
  | num : Int → JValue
  | str : String → JValue
  | arr : List JValue → JValue
  | obj : List (String × JValue) → JValue

/-- The `location` sub-record of a raw business; a `none` field models a
missing key, so `.get` with a default can be expressed with `Option.getD`. -/
structure YLocation where
  display_address : Option (List String)
  city : Option JValue
  zip_code : Option JValue

/-- One entry of the `categories` list of a raw business. -/
structure YCategory where
  title : Option JValue

/-- A raw business record as consumed by `extract_business_info`: exactly
the keys the extractor reads, each `none` when the key is missing. -/
structure RawBusiness where
  name : Option JValue
  rating : Option JValue
  review_count : Option JValue
  location : Option YLocation
  phone : Option JValue
  url : Option JValue
  coordinates : Option JValue
  categories : Option (List YCategory)
  price : Option JValue

/-- The normalized record built by the extractor. -/
structure BusinessInfo where
  name : JValue
  rating : JValue
  review_count : JValue
  address : String
  city : JValue
  zip_code : JValue
  phone : JValue
  website : JValue
  coordinates : JValue
  categories : List JValue
  price : JValue

/-- Python `sep.join(xs)`: the elements of `xs` with `sep` between each
adjacent pair, the empty string for an empty list. -/
def strJoin (sep : String) : List String → String
  | [] => ""
  | x :: xs => xs.foldl (fun acc y => acc ++ sep ++ y) x

/-- `business.get("location", {})`: the location sub-record, an all-empty
one when the key is missing. -/
def locationOrEmpty (b : RawBusiness) : YLocation :=
  b.location.getD ⟨none, none, none⟩

/-- The body of the extraction loop: one raw record to one normalized
record, field for field as in the source dictionary literal. -/
def extractOne (business : RawBusiness) : BusinessInfo :=
  { name := business.name.getD JValue.null
    rating := business.rating.getD JValue.null
    review_count := business.review_count.getD JValue.null
    address := strJoin ", " ((locationOrEmpty business).display_address.getD [])
    city := (locationOrEmpty business).city.getD JValue.null
    zip_code := (locationOrEmpty business).zip_code.getD JValue.null
    phone := business.phone.getD JValue.null
    website := business.url.getD JValue.null
    coordinates := business.coordinates.getD JValue.null
    categories := (business.categories.getD []).map (fun c => c.title.getD JValue.null)
    price := business.price.getD (JValue.str "N/A") }

/-- `extract_business_info`: the source's append loop over the input list,
i.e. the map of `extractOne` over it. -/
def extract_business_info (businesses : List RawBusiness) : List BusinessInfo :=
  businesses.map extractOne

/-- Modelled from the spec: "comma-and-space join of the display_address
list (empty string if list absent/empty)", written as direct recursion, to
be compared with the Python `", ".join` the code uses. -/
def commaSpaceJoin : List String → String
  | [] => ""
  | [s] => s
  | s :: rest => s ++ ", " ++ commaSpaceJoin rest

/-- A raw record with every key missing. -/
def emptyBusiness : RawBusiness :=
  ⟨none, none, none, none, none, none, none, none, none⟩

/-- The spec's address example: `display_address = ["123 Main St", "Springfield"]`. -/
def bAddressExample : RawBusiness :=
  { emptyBusiness with location := some ⟨some ["123 Main St", "Springfield"], none, none⟩ }

/-- A raw record with no `price` key. -/
def bNoPrice : RawBusiness := emptyBusiness

/-- A raw record whose `price` key holds the string `"$$"`. -/
def bWithPrice : RawBusiness := { emptyBusiness with price := some (JValue.str "$$") }

/-- Python `int()` on an exact rational: truncation toward zero. -/
def pyInt (q : ℚ) : ℤ := if 0 ≤ q then ⌊q⌋ else ⌈q⌉

/-- The radius conversion `int(radius_miles * 1609.34)`, in exact rational
arithmetic. -/
def radius_meters (radius_miles : ℚ) : ℤ := pyInt (radius_miles * (1609.34 : ℚ))

/-- JSON insignificant whitespace (also what `json.dump` emits between
tokens when pretty-printing). -/
def isWsChar (c : Char) : Bool := c = ' ' || c = '\n' || c = '\t' || c = '\r'

/-- Drop leading whitespace. -/
def skipWs : List Char → List Char
  | [] => []
  | c :: cs => if isWsChar c then skipWs cs else c :: cs

/-- Four lowercase hex digits, most significant first, of `n < 0x10000`. -/
def hex4 (n : Nat) : List Char :=
  [Nat.digitChar (n / 4096 % 16), Nat.digitChar (n / 256 % 16),
   Nat.digitChar (n / 16 % 16), Nat.digitChar (n % 16)]

/-- How `json.dump` (with its default `ensure_ascii=True`) writes one
character inside a string literal: `"` and `\` get a backslash escape,
printable ASCII is emitted as itself, the control characters with short
names use them, and everything else becomes `\uXXXX`, with a surrogate
pair for code points beyond the basic multilingual plane. -/
def escapeChar (c : Char) : List Char :=
  if c = '"' then ['\\', '"']
  else if c = '\\' then ['\\', '\\']
  else if 0x20 ≤ c.toNat ∧ c.toNat ≤ 0x7e then [c]
  else if c.toNat = 8 then ['\\', 'b']
  else if c.toNat = 9 then ['\\', 't']
  else if c.toNat = 10 then ['\\', 'n']
  else if c.toNat = 12 then ['\\', 'f']
  else if c.toNat = 13 then ['\\', 'r']
  else if c.toNat < 0x10000 then '\\' :: 'u' :: hex4 c.toNat
  else '\\' :: 'u' :: hex4 (0xd800 + (c.toNat - 0x10000) / 0x400) ++
       '\\' :: 'u' :: hex4 (0xdc00 + (c.toNat - 0x10000) % 0x400)

/-- Escape every character of a string body. -/
def escList : List Char → List Char
  | [] => []
  | c :: cs => escapeChar c ++ escList cs

/-- A JSON string literal: quote, escaped body, quote. -/
def renderString (s : String) : List Char := '"' :: (escList s.data ++ ['"'])

/-- Decimal digits of `n`, most significant first (`fuel > log10 n`
suffices; the callers pass `n + 1`). -/
def natToChars : Nat → Nat → List Char
  | 0, _ => []
  | fuel + 1, n =>
    if n < 10 then [Nat.digitChar n]
    else natToChars fuel (n / 10) ++ [Nat.digitChar (n % 10)]

/-- An integer in decimal, as `json.dump` writes Python ints. -/
def renderInt (i : Int) : List Char :=
  if i < 0 then '-' :: natToChars (i.natAbs + 1) i.natAbs
  else natToChars (i.natAbs + 1) i.natAbs

/-- `4 * d` spaces: the `indent=4` prefix at nesting depth `d`. -/
def indentChars (d : Nat) : List Char := List.replicate (4 * d) ' '

mutual
/-- `json.dump(v, f, indent=4)` at nesting depth `d`: empty containers
print as two brackets; non-empty ones open the bracket, put each entry on
its own line at the next indent level with `,` separators, and close the
bracket on its own line at the current level, keys rendered as string
literals followed by `: `. -/
def renderV : JValue → Nat → List Char
  | .null, _ => ['n', 'u', 'l', 'l']
  | .bool true, _ => ['t', 'r', 'u', 'e']
  | .bool false, _ => ['f', 'a', 'l', 's', 'e']
  | .num i, _ => renderInt i
  | .str s, _ => renderString s
  | .arr [], _ => ['[', ']']
  | .arr (v :: vs), d =>
    '[' :: '\n' :: (renderItems (v :: vs) (d + 1) ++ '\n' :: (indentChars d ++ [']']))
  | .obj [], _ => ['{', '}']
  | .obj (f :: fs), d =>
    '{' :: '\n' :: (renderFields (f :: fs) (d + 1) ++ '\n' :: (indentChars d ++ ['}']))

/-- The lines of a non-empty array body, `,`-separated. -/
def renderItems : List JValue → Nat → List Char
  | [], _ => []
  | [v], d => indentChars d ++ renderV v d
  | v :: v2 :: vs, d =>
    indentChars d ++ renderV v d ++ ',' :: '\n' :: renderItems (v2 :: vs) d

/-- The lines of a non-empty object body, `,`-separated. -/
def renderFields : List (String × JValue) → Nat → List Char
  | [], _ => []
  | [(k, v)], d => indentChars d ++ renderString k ++ ':' :: ' ' :: renderV v d
  | (k, v) :: f2 :: fs, d =>
    indentChars d ++ renderString k ++ ':' :: ' ' :: renderV v d ++
      ',' :: '\n' :: renderFields (f2 :: fs) d
end

/-- The serialized text of a value. -/
def jsonDump (v : JValue) : String := String.mk (renderV v 0)

/-- The JSON object serialized for one normalized record: the fields in
the dictionary-literal order of the source. -/
def businessInfoJ (b : BusinessInfo) : JValue :=
  JValue.obj [("name", b.name), ("rating", b.rating),
    ("review_count", b.review_count), ("address", JValue.str b.address),
    ("city", b.city), ("zip_code", b.zip_code), ("phone", b.phone),
    ("website", b.website), ("coordinates", b.coordinates),
    ("categories", JValue.arr b.categories), ("price", b.price)]

/-- `save_to_json`: writes `json.dump(data, f, indent=4)` to the file and
returns the filename; modelled as the pair of the filename used and the
text written (the timestamped default filename is out of scope — the
claim quantifies over given filenames). -/
def save_to_json (data : List BusinessInfo) (filename : String) : String × String :=
  (filename, jsonDump (JValue.arr (data.map businessInfoJ)))

/-- Value of a hex digit, upper or lower case. -/
def hexVal (c : Char) : Option Nat :=
  if '0' ≤ c ∧ c ≤ '9' then some (c.toNat - 48)
  else if 'a' ≤ c ∧ c ≤ 'f' then some (c.toNat - 87)
  else if 'A' ≤ c ∧ c ≤ 'F' then some (c.toNat - 55)
  else none

/-- Four hex digits to their value. -/
def hex4Val : List Char → Option (Nat × List Char)
  | c1 :: c2 :: c3 :: c4 :: rest =>
    match hexVal c1, hexVal c2, hexVal c3, hexVal c4 with
    | some a, some b, some c, some d => some (a * 4096 + b * 256 + c * 16 + d, rest)
    | _, _, _, _ => none
  | _ => none

/-- Decode the escape sequence after a backslash, reassembling surrogate
pairs into one code point. -/
def decodeEscape : List Char → Option (Char × List Char)
  | [] => none
  | e :: cs =>
    if e = '"' then some ('"', cs)
    else if e = '\\' then some ('\\', cs)
    else if e = '/' then some ('/', cs)
    else if e = 'b' then some (Char.ofNat 8, cs)
    else if e = 'f' then some (Char.ofNat 12, cs)
    else if e = 'n' then some ('\n', cs)
    else if e = 'r' then some ('\r', cs)
    else if e = 't' then some ('\t', cs)
    else if e = 'u' then
      match hex4Val cs with
      | none => none
      | some (n, cs2) =>
        if n < 0xd800 ∨ 0xdfff < n then some (Char.ofNat n, cs2)
        else if n < 0xdc00 then
          match cs2 with
          | '\\' :: 'u' :: cs3 =>
            match hex4Val cs3 with
            | some (m, cs4) =>
              if 0xdc00 ≤ m ∧ m ≤ 0xdfff then
                some (Char.ofNat (0x10000 + (n - 0xd800) * 0x400 + (m - 0xdc00)), cs4)
              else none
            | none => none
          | _ => none
        else none
    else none

/-- Parse a string body after the opening quote, one produced character
per unit of fuel. -/
def parseStringBody : Nat → List Char → Option (List Char × List Char)
  | 0, _ => none
  | fuel + 1, cs =>
    match cs with
    | [] => none
    | c :: cs1 =>
      if c = '"' then some ([], cs1)
      else if c = '\\' then
        match decodeEscape cs1 with
        | none => none
        | some (ch, cs2) =>
          match parseStringBody fuel cs2 with
          | none => none
          | some (l, rest) => some (ch :: l, rest)
      else
        match parseStringBody fuel cs1 with
        | none => none
        | some (l, rest) => some (c :: l, rest)

/-- Value of a decimal digit character. -/
def digitVal (c : Char) : Nat := c.toNat - 48

/-- Consume the maximal run of digits, accumulating their value. -/
def parseDigitsAux (acc : Nat) : List Char → Nat × List Char
  | [] => (acc, [])
  | c :: cs => if c.isDigit then parseDigitsAux (acc * 10 + digitVal c) cs else (acc, c :: cs)

/-- Parse an optionally negated decimal integer. -/
def parseNumber : List Char → Option (Int × List Char)
  | [] => none
  | c :: cs =>
    if c = '-' then
      match cs with
      | c2 :: _ =>
        if c2.isDigit then
          some (-((parseDigitsAux 0 cs).1 : Int), (parseDigitsAux 0 cs).2)
        else none
      | [] => none
    else if c.isDigit then
      some (((parseDigitsAux 0 (c :: cs)).1 : Int), (parseDigitsAux 0 (c :: cs)).2)
    else none

mutual
/-- Parse one JSON value after skipping whitespace; the fuel bounds the
number of nested values and one unit is spent per value. -/
def parseValue : Nat → List Char → Option (JValue × List Char)
  | 0, _ => none
  | fuel + 1, cs =>
    match skipWs cs with
    | [] => none
    | c :: cs1 =>
      if c = 'n' then
        match cs1 with
        | 'u' :: 'l' :: 'l' :: rest => some (.null, rest)
        | _ => none
      else if c = 't' then
        match cs1 with
        | 'r' :: 'u' :: 'e' :: rest => some (.bool true, rest)
        | _ => none
      else if c = 'f' then
        match cs1 with
        | 'a' :: 'l' :: 's' :: 'e' :: rest => some (.bool false, rest)
        | _ => none
      else if c = '"' then
        match parseStringBody (cs1.length + 1) cs1 with
        | some (l, rest) => some (.str (String.mk l), rest)
        | none => none
      else if c = '[' then
        match skipWs cs1 with
        | ']' :: rest => some (.arr [], rest)
        | cs2 =>
          match parseItems fuel cs2 with
          | some (vs, rest) => some (.arr vs, rest)
          | none => none
      else if c = '{' then
        match skipWs cs1 with
        | '}' :: rest => some (.obj [], rest)
        | cs2 =>
          match parseFields fuel cs2 with
          | some (fs, rest) => some (.obj fs, rest)
          | none => none
      else
        match parseNumber (c :: cs1) with
        | some (i, rest) => some (.num i, rest)
        | none => none
termination_by fuel _ => 2 * fuel
decreasing_by all_goals omega

/-- Parse the comma-separated values of a non-empty array body up to the
closing bracket. -/
def parseItems : Nat → List Char → Option (List JValue × List Char)
  | 0, _ => none
  | fuel + 1, cs =>
    match parseValue (fuel + 1) cs with
    | none => none
    | some (v, r) =>
      match skipWs r with
      | ',' :: r2 =>
        match parseItems fuel r2 with
        | some (vs, rest) => some (v :: vs, rest)
        | none => none
      | ']' :: r2 => some ([v], r2)
      | _ => none
termination_by fuel _ => 2 * fuel + 1
decreasing_by all_goals omega

/-- Parse the comma-separated key-value pairs of a non-empty object body
up to the closing brace. -/
def parseFields : Nat → List Char → Option (List (String × JValue) × List Char)
  | 0, _ => none
  | fuel + 1, cs =>
    match skipWs cs with
    | '"' :: cs1 =>
      match parseStringBody (cs1.length + 1) cs1 with
      | none => none
      | some (kl, r) =>
        match skipWs r with
        | ':' :: r2 =>
          match parseValue (fuel + 1) r2 with
          | none => none
          | some (v, r3) =>
            match skipWs r3 with
            | ',' :: r4 =>
              match parseFields fuel r4 with
              | some (fs, rest) => some ((String.mk kl, v) :: fs, rest)
              | none => none
            | '}' :: r4 => some ([(String.mk kl, v)], r4)
            | _ => none
        | _ => none
    | _ => none
termination_by fuel _ => 2 * fuel + 1
decreasing_by all_goals omega
end

/-- Parse a complete JSON document: one value with only whitespace after
it.  The fuel `length + 1` covers any value a text of that length can
denote. -/
def jsonParse (s : String) : Option JValue :=
  match parseValue (s.data.length + 1) s.data with
  | some (v, rest) => if skipWs rest = [] then some v else none
  | none => none

mutual
/-- Number of value nodes, each list entry counting at least one. -/
def jsize : JValue → Nat
  | .null => 1
  | .bool _ => 1
  | .num _ => 1
  | .str _ => 1
  | .arr l => 1 + jsizeL l
  | .obj l => 1 + jsizeF l

/-- Node count of an array body. -/
def jsizeL : List JValue → Nat
  | [] => 0
  | v :: t => jsize v + jsizeL t

/-- Node count of an object body. -/
def jsizeF : List (String × JValue) → Nat
  | [] => 0
  | (_, v) :: t => jsize v + 1 + jsizeF t
end

/-- Does the text not begin with a digit?  Guards number parsing against
running into the following token. -/
def headNotDigit : List Char → Bool
  | [] => true
  | c :: _ => !c.isDigit

lemma continuesAt_not_stopsAt {α : Type} (svc : Nat → Response α) (i : Nat)
    (hc : continuesAt svc i) (hs : stopsAt svc i) : False := by
  obtain ⟨h1, h2, h3, h4⟩ := hc
  rcases hs with h | h | h | h
  · exact h h1
  · exact h2 h
  · omega
  · omega

lemma effPage_of_success {α : Type} (svc : Nat → Response α) (i : Nat)
    (h : (svc i).status = 200) : effPage svc i = (svc i).businesses := by
  simp [effPage, h]

lemma effPage_of_failure {α : Type} (svc : Nat → Response α) (i : Nat)
    (h : (svc i).status ≠ 200) : effPage svc i = [] := by
  simp [effPage, h]

lemma flatPages_length {α : Type} (svc : Nat → Response α) :
    ∀ k, (flatPages svc k).length = cumFetched svc k := by
  intro k
  induction k with
  | zero => rfl
  | succ k ih => simp [flatPages, cumFetched, ih]

lemma offsetsUpTo_length (limit : Nat) : ∀ k, (offsetsUpTo limit k).length = k := by
  intro k
  induction k with
  | zero => rfl
  | succ k ih => simp [offsetsUpTo, ih]

/-- Characterization of the loop: starting at request `k` in a reachable
state, the loop runs to the first request `n ≥ k` at which a break
condition holds, having continued through every request in between, and
returns the concatenation of all successful pages up to and including
request `n` together with the offsets of requests `0..n`. -/
lemma searchGo_char {α : Type} (svc : Nat → Response α) (limit : Nat) :
    ∀ fuel k, cumFetched svc k < 1000 → 1000 < cumFetched svc k + fuel →
    ∃ n, k ≤ n ∧ (∀ i, k ≤ i → i < n → continuesAt svc i) ∧ stopsAt svc n ∧
      searchGo svc limit fuel k (limit * k) (cumFetched svc k) (flatPages svc k)
        (offsetsUpTo limit k) =
        some ⟨flatPages svc (n + 1), offsetsUpTo limit (n + 1)⟩ := by
  intro fuel
  induction fuel with
  | zero => intro k h1 h2; omega
  | succ fuel ih =>
    intro k h1 h2
    by_cases hs : (svc k).status = 200
    · by_cases he : (svc k).businesses.isEmpty
      · -- empty page: break with the accumulator unchanged
        have heq : (svc k).businesses = [] := by
          simpa [List.isEmpty_iff] using he
        refine ⟨k, le_refl k, ?_, Or.inr (Or.inl heq), ?_⟩
        · intro i hki hik; omega
        · have hflat : flatPages svc (k + 1) = flatPages svc k := by
            simp [flatPages, effPage_of_success svc k hs, heq]
          rw [searchGo, if_pos hs, if_pos he, hflat]
          rfl
      · have hne : (svc k).businesses ≠ [] := by
          simpa [List.isEmpty_iff] using he
        have hcum : cumFetched svc (k + 1) =
            cumFetched svc k + (svc k).businesses.length := by
          simp [cumFetched, effPage_of_success svc k hs]
        have hflat : flatPages svc (k + 1) = flatPages svc k ++ (svc k).businesses := by
          simp [flatPages, effPage_of_success svc k hs]
        by_cases hstop : ((svc k).total ≤
              ((cumFetched svc k + (svc k).businesses.length : Nat) : Int)
            ∨ 1000 ≤ cumFetched svc k + (svc k).businesses.length)
        · -- the page crosses `total` or the 1000 cap: break after extending
          refine ⟨k, le_refl k, ?_, ?_, ?_⟩
          · intro i hki hik; omega
          · rcases hstop with h | h
            · exact Or.inr (Or.inr (Or.inl (by rw [hcum]; exact_mod_cast h)))
            · exact Or.inr (Or.inr (Or.inr (by omega)))
          · rw [searchGo, if_pos hs, if_neg he, if_pos hstop, hflat]
            rfl
        · -- no break condition: one more round
          push_neg at hstop
          obtain ⟨hlt, hcap⟩ := hstop
          have hc : continuesAt svc k := by
            refine ⟨hs, hne, ?_, ?_⟩
            · rw [hcum]; exact_mod_cast hlt
            · omega
          have hlen : 1 ≤ (svc k).businesses.length := List.length_pos.mpr hne
          have h1' : cumFetched svc (k + 1) < 1000 := by omega
          have h2' : 1000 < cumFetched svc (k + 1) + fuel := by omega
          obtain ⟨n, hkn, hcont, hstop', heq⟩ := ih (k + 1) h1' h2'
          refine ⟨n, by omega, ?_, hstop', ?_⟩
          · intro i hki hik
            rcases Nat.eq_or_lt_of_le hki with h | h
            · exact h ▸ hc
            · exact hcont i (by omega) hik
          · rw [searchGo, if_pos hs, if_neg he,
              if_neg (by push_neg; exact ⟨hlt, hcap⟩)]
            have hoff : limit * k + limit = limit * (k + 1) := by ring
            have hoffs : offsetsUpTo limit k ++ [limit * k] = offsetsUpTo limit (k + 1) := rfl
            rw [← hcum, ← hflat, hoff, hoffs]
            exact heq
    · -- non-success status: break with the accumulator unchanged
      refine ⟨k, le_refl k, ?_, Or.inl hs, ?_⟩
      · intro i hki hik; omega
      · have hflat : flatPages svc (k + 1) = flatPages svc k := by
          simp [flatPages, effPage_of_failure svc k hs]
        rw [searchGo, if_neg hs, hflat]
        rfl

/-- Specialization to the loop entry state. -/
lemma search_businesses_char {α : Type} (svc : Nat → Response α) (limit : Nat) :
    ∃ n, (∀ i, i < n → continuesAt svc i) ∧ stopsAt svc n ∧
      search_businesses svc limit =
        some ⟨flatPages svc (n + 1), offsetsUpTo limit (n + 1)⟩ := by
  have h := searchGo_char svc limit 1001 0 (by simp [cumFetched]) (by simp [cumFetched])
  obtain ⟨n, -, hcont, hstop, heq⟩ := h
  refine ⟨n, fun i hi => hcont i (Nat.zero_le i) hi, hstop, ?_⟩
  have h0 : limit * 0 = 0 := by ring
  unfold search_businesses
  rw [← h0]
  exact heq

/-- The break index of the loop is the unique index `n` such that every
earlier request continues and request `n` stops. -/
lemma search_break_unique {α : Type} (svc : Nat → Response α) {n m : Nat}
    (hcn : ∀ i, i < n → continuesAt svc i) (hsn : stopsAt svc n)
    (hcm : ∀ i, i < m → continuesAt svc i) (hsm : stopsAt svc m) : n = m := by
  rcases Nat.lt_trichotomy n m with h | h | h
  · exact absurd hsn (fun hs => continuesAt_not_stopsAt svc n (hcm n h) hs)
  · exact h
  · exact absurd hsm (fun hs => continuesAt_not_stopsAt svc m (hcn m h) hs)

/-- Termination of the loop from any state: whenever fewer than 1000 records
have been fetched and the fuel covers the distance to the cap, the loop
breaks before the fuel runs out, and the number of requests is bounded. -/
lemma searchGo_total {α : Type} (svc : Nat → Response α) (limit : Nat) :
    ∀ fuel tf reqIdx offset acc offs, tf < 1000 → 1000 < tf + fuel →
    ∃ out, searchGo svc limit fuel reqIdx offset tf acc offs = some out ∧
      out.offsets.length ≤ offs.length + (1000 - tf) := by
  intro fuel
  induction fuel with
  | zero => intro tf reqIdx offset acc offs h1 h2; omega
  | succ fuel ih =>
    intro tf reqIdx offset acc offs h1 h2
    by_cases hs : (svc reqIdx).status = 200
    · by_cases he : (svc reqIdx).businesses.isEmpty
      · refine ⟨⟨acc, offs ++ [offset]⟩, ?_, ?_⟩
        · rw [searchGo, if_pos hs, if_pos he]
        · simp; omega
      · by_cases hstop : ((svc reqIdx).total ≤
              ((tf + (svc reqIdx).businesses.length : Nat) : Int)
            ∨ 1000 ≤ tf + (svc reqIdx).businesses.length)
        · refine ⟨⟨acc ++ (svc reqIdx).businesses, offs ++ [offset]⟩, ?_, ?_⟩
          · rw [searchGo, if_pos hs, if_neg he, if_pos hstop]
          · simp; omega
        · have hlen : 1 ≤ (svc reqIdx).businesses.length := by
            have : (svc reqIdx).businesses ≠ [] := by
              simpa [List.isEmpty_iff] using he
            cases hb : (svc reqIdx).businesses with
            | nil => exact absurd hb this
            | cons a l => simp
          push_neg at hstop
          obtain ⟨hlt, hcap⟩ := hstop
          have h1' : tf + (svc reqIdx).businesses.length < 1000 := hcap
          have h2' : 1000 < tf + (svc reqIdx).businesses.length + fuel := by omega
          obtain ⟨out, hout, hb⟩ := ih (tf + (svc reqIdx).businesses.length)
            (reqIdx + 1) (offset + limit) (acc ++ (svc reqIdx).businesses)
            (offs ++ [offset]) h1' h2'
          refine ⟨out, ?_, ?_⟩
          · rw [searchGo, if_pos hs, if_neg he, if_neg (by push_neg; exact ⟨hlt, hcap⟩)]
            exact hout
          · simp at hb; omega
    · refine ⟨⟨acc, offs ++ [offset]⟩, ?_, ?_⟩
      · rw [searchGo, if_neg hs]
      · simp; omega

set_option maxRecDepth 40000 in
/-- C1 (counterexample): with pages of 600 records and a reported total of
2000, the loop continues after the first page (600 < 1000) and stops only
after extending the accumulator with the second page, returning 1200
records — more than 1000, refuting the claim's cap on the returned list. -/
theorem C1_cap_counterexample :
    recordCount (search_businesses svcOverCap 50) = 1200 ∧ 1000 < 1200 := by
  constructor
  · rfl
  · norm_num

/-- C1 (amended): the paginator stops exactly at the first request where a
termination condition (empty page, count at or above the reported total,
count at or above 1000, or a non-success status) holds — every earlier
request satisfied none of them — and when every page holds at most `L`
records the returned list has at most `999 + L` entries (its count before
the final page was below 1000; the final page may overshoot the cap). -/
theorem C1_paginator_stops_first_condition {α : Type} (svc : Nat → Response α)
    (limit L : Nat) (hL : ∀ i, ((svc i).businesses).length ≤ L) :
    ∃ n, search_businesses svc limit =
        some ⟨flatPages svc (n + 1), offsetsUpTo limit (n + 1)⟩ ∧
      (∀ i, i < n → continuesAt svc i) ∧ stopsAt svc n ∧
      (flatPages svc (n + 1)).length ≤ 999 + L := by
  obtain ⟨n, hcont, hstop, heq⟩ := search_businesses_char svc limit
  refine ⟨n, heq, hcont, hstop, ?_⟩
  rw [flatPages_length]
  have hcum : cumFetched svc (n + 1) = cumFetched svc n + (effPage svc n).length := rfl
  have heff : (effPage svc n).length ≤ L := by
    unfold effPage
    split
    · exact hL n
    · simp
  have hn : cumFetched svc n ≤ 999 := by
    cases n with
    | zero => simp [cumFetched]
    | succ m =>
      have h4 := (hcont m (Nat.lt_succ_self m)).2.2.2
      omega
  omega

/-- Witness for the amended C1: the all-empty-pages service satisfies the
page bound with `L = 0` and the theorem applies to it. -/
theorem C1_paginator_stops_first_condition_witness :
    (∀ i, ((svcEmptyW i).businesses).length ≤ 0) ∧
    (∃ n, search_businesses svcEmptyW 50 =
        some ⟨flatPages svcEmptyW (n + 1), offsetsUpTo 50 (n + 1)⟩ ∧
      (∀ i, i < n → continuesAt svcEmptyW i) ∧ stopsAt svcEmptyW n ∧
      (flatPages svcEmptyW (n + 1)).length ≤ 999 + 0) := by
  have h : ∀ i, ((svcEmptyW i).businesses).length ≤ 0 := fun i => by simp [svcEmptyW]
  exact ⟨h, C1_paginator_stops_first_condition svcEmptyW 50 0 h⟩

/-- C2: if the loop reaches request `k` (every earlier request continued)
and request `k` answers with a non-success status, the loop returns the
records of the `k` earlier successful pages, having issued exactly the
requests `0..k` — no exception is raised (the model is a total function)
and no further request is issued.  When the first request fails the
returned list is empty. -/
theorem C2_error_returns_accumulated {α : Type} (svc : Nat → Response α) (limit k : Nat)
    (hcont : ∀ i, i < k → continuesAt svc i) (hfail : (svc k).status ≠ 200) :
    search_businesses svc limit = some ⟨flatPages svc k, offsetsUpTo limit (k + 1)⟩ ∧
      (k = 0 → search_businesses svc limit = some ⟨[], [0]⟩) := by
  obtain ⟨n, hcn, hsn, heq⟩ := search_businesses_char svc limit
  have hnk : n = k := search_break_unique svc hcn hsn hcont (Or.inl hfail)
  subst hnk
  have hflat : flatPages svc (n + 1) = flatPages svc n := by
    simp [flatPages, effPage_of_failure svc n hfail]
  refine ⟨by rw [heq, hflat], ?_⟩
  intro hk
  subst hk
  rw [heq, hflat]
  simp [flatPages, offsetsUpTo]

/-- Witness for C2: first page succeeds with one record, second request
returns HTTP 500; the paginator returns that single record and used the
offsets 0 and 50. -/
theorem C2_error_returns_accumulated_witness :
    search_businesses svcFailW 50 = some ⟨[7], [0, 50]⟩ := by
  have h1 : ∀ i, i < 1 → continuesAt svcFailW i := by
    intro i hi
    interval_cases i
    refine ⟨rfl, by simp [svcFailW], ?_, ?_⟩
    · show ((cumFetched svcFailW 1 : Nat) : Int) < (svcFailW 0).total
      norm_num [cumFetched, effPage, svcFailW]
    · norm_num [cumFetched, effPage, svcFailW]
  have h2 : (svcFailW 1).status ≠ 200 := by simp [svcFailW]
  have h := (C2_error_returns_accumulated svcFailW 50 1 h1 h2).1
  simpa [flatPages, effPage, offsetsUpTo, svcFailW] using h

/-- C3: with `total = 3`, a first page of two records and a second page of
one record, the paginator returns the three records in order, makes
exactly two requests, and sends the offsets 0 and `limit` — the offset
advances by the page-size limit, not by the number of records received. -/
theorem C3_two_page_scenario (limit : Nat) :
    search_businesses svcScenario3 limit = some ⟨[10, 20, 30], [0, limit]⟩ ∧
    requestCount (search_businesses svcScenario3 limit) = 2 := by
  have h : search_businesses svcScenario3 limit =
      some ⟨[10, 20, 30], [0, 0 + limit]⟩ := rfl
  constructor
  · simpa using h
  · rw [h]; rfl

/-- C9: the pagination loop terminates for every service behaviour — the
initial fuel of 1001 is never exhausted, because every non-breaking
iteration adds at least one record and the loop breaks at 1000 — and the
number of requests issued never exceeds 1001 (it is in fact at most 1000). -/
theorem C9_terminates_bounded {α : Type} (svc : Nat → Response α) (limit : Nat) :
    ∃ out, search_businesses svc limit = some out ∧ out.offsets.length ≤ 1001 := by
  obtain ⟨out, heq, hb⟩ := searchGo_total svc limit 1001 0 0 0 [] []
    (by norm_num) (by norm_num)
  refine ⟨out, heq, ?_⟩
  simp at hb
  omega

/-- C10: any status other than 200 on the first request — including other
2xx success codes such as 201 or 204 — takes the error branch: the loop
stops after that single request and returns the records accumulated so
far (none). -/
theorem C10_only_200_success {α : Type} (svc : Nat → Response α) (limit : Nat)
    (hfail : (svc 0).status ≠ 200) :
    search_businesses svc limit = some ⟨[], [0]⟩ := by
  obtain ⟨n, hcn, hsn, heq⟩ := search_businesses_char svc limit
  have hn0 : n = 0 := search_break_unique svc hcn hsn
    (fun i hi => absurd hi (Nat.not_lt_zero i)) (Or.inl hfail)
  subst hn0
  rw [heq]
  simp [flatPages, offsetsUpTo, effPage_of_failure svc 0 hfail]

/-- Witness for C10: a service answering 201 (a success code distinct from
200) is treated as an error: one request, empty result. -/
theorem C10_only_200_success_witness :
    search_businesses svcStatus201 7 = some ⟨([] : List Nat), [0]⟩ :=
  C10_only_200_success svcStatus201 7 (by simp [svcStatus201])

lemma strJoin_eq_commaSpaceJoin :
    ∀ l : List String, strJoin ", " l = commaSpaceJoin l := by
  intro l
  cases l with
  | nil => rfl
  | cons x xs =>
    rw [strJoin]
    induction xs generalizing x with
    | nil => rfl
    | cons y ys ih =>
      rw [List.foldl_cons, ih (x ++ ", " ++ y)]
      cases ys with
      | nil => simp [commaSpaceJoin, String.append_assoc]
      | cons z zs => simp [commaSpaceJoin, String.append_assoc]

/-- C4: the extractor is a pure, length- and order-preserving map — the
output has the length of the input, and the record at every index is
`extractOne` of the input record at that index, derived from it alone. -/
theorem C4_extractor_pointwise_map (bs : List RawBusiness) :
    (extract_business_info bs).length = bs.length ∧
    ∀ i : Nat, (extract_business_info bs)[i]? = (bs[i]?).map extractOne := by
  constructor
  · simp [extract_business_info]
  · intro i
    simp [extract_business_info]

/-- C5: the normalized `address` is the comma-and-space join of
`location.display_address` (the empty string when `location` or
`display_address` is missing, since the defaulted list is `[]`), and on
the spec's example list it is `"123 Main St, Springfield"`. -/
theorem C5_address_comma_join :
    (∀ b : RawBusiness, (extractOne b).address =
      commaSpaceJoin ((locationOrEmpty b).display_address.getD [])) ∧
    (extractOne bAddressExample).address = "123 Main St, Springfield" := by
  constructor
  · intro b
    rw [extractOne]
    exact strJoin_eq_commaSpaceJoin _
  · decide

/-- C6: a missing `price` key yields the literal string `"N/A"`; a present
`price` value is passed through unchanged. -/
theorem C6_price_default (b : RawBusiness) :
    (b.price = none → (extractOne b).price = JValue.str "N/A") ∧
    (∀ p, b.price = some p → (extractOne b).price = p) := by
  constructor
  · intro h; simp [extractOne, h]
  · intro p h; simp [extractOne, h]

/-- Witness for C6: a record without `price` maps to `"N/A"`, one with
`price = "$$"` keeps it. -/
theorem C6_price_default_witness :
    (extractOne bNoPrice).price = JValue.str "N/A" ∧
    (extractOne bWithPrice).price = JValue.str "$$" :=
  ⟨(C6_price_default bNoPrice).1 rfl, (C6_price_default bWithPrice).2 _ rfl⟩

/-- C8: in exact rational arithmetic the radius sent to the service is the
truncation toward zero of `radius_miles * 1609.34` — for a non-negative
radius, the floor of `radius_miles * 160934/100` — and the default 25
miles yields 40233 meters. -/
theorem C8_radius_conversion :
    (∀ r : ℚ, 0 ≤ r → radius_meters r = ⌊r * (160934 / 100 : ℚ)⌋) ∧
    radius_meters 25 = 40233 := by
  have hlit : (1609.34 : ℚ) = 160934 / 100 := by norm_num
  have hfloor : ∀ r : ℚ, 0 ≤ r → radius_meters r = ⌊r * (160934 / 100 : ℚ)⌋ := by
    intro r hr
    rw [radius_meters, pyInt, if_pos (mul_nonneg hr (by norm_num)), hlit]
  refine ⟨hfloor, ?_⟩
  rw [hfloor 25 (by norm_num)]
  rw [show (25 : ℚ) * (160934 / 100) = 80467 / 2 by norm_num]
  rw [Int.floor_eq_iff]
  norm_num

/-- Witness for C8: the theorem applied at the default radius of 25 miles. -/
theorem C8_radius_conversion_witness :
    (0 : ℚ) ≤ 25 ∧ radius_meters 25 = ⌊(25 : ℚ) * (160934 / 100 : ℚ)⌋ :=
  ⟨by norm_num, C8_radius_conversion.1 25 (by norm_num)⟩

lemma skipWs_cons_of_not_ws {c : Char} (cs : List Char) (h : isWsChar c = false) :
    skipWs (c :: cs) = c :: cs := by
  simp [skipWs, h]

lemma skipWs_cons_of_ws {c : Char} (cs : List Char) (h : isWsChar c = true) :
    skipWs (c :: cs) = skipWs cs := by
  simp [skipWs, h]

lemma skipWs_replicate_space : ∀ n cs, skipWs (List.replicate n ' ' ++ cs) = skipWs cs := by
  intro n
  induction n with
  | zero => intro cs; rfl
  | succ n ih =>
    intro cs
    rw [List.replicate_succ, List.cons_append, skipWs_cons_of_ws _ (by decide)]
    exact ih cs

lemma skipWs_indent (d : Nat) (cs : List Char) : skipWs (indentChars d ++ cs) = skipWs cs :=
  skipWs_replicate_space _ _

lemma skipWs_newline (cs : List Char) : skipWs ('\n' :: cs) = skipWs cs :=
  skipWs_cons_of_ws _ (by decide)

lemma digitChar_isDigit : ∀ n, n < 10 → (Nat.digitChar n).isDigit = true := by decide

lemma digitVal_digitChar : ∀ n, n < 10 → digitVal (Nat.digitChar n) = n := by decide

lemma hexVal_digitChar : ∀ n, n < 16 → hexVal (Nat.digitChar n) = some n := by decide

lemma isDigit_ne (c x : Char) (h : c.isDigit = true) (hx : x.isDigit = false) : c ≠ x := by
  rintro rfl
  rw [h] at hx
  exact Bool.noConfusion hx

lemma isDigit_not_ws (c : Char) (h : c.isDigit = true) : isWsChar c = false := by
  cases hc : isWsChar c
  · rfl
  · exfalso
    simp only [isWsChar, Bool.or_eq_true, decide_eq_true_eq] at hc
    rcases hc with ((rfl | rfl) | rfl) | rfl <;> exact absurd h (by decide)

lemma natToChars_ne_nil (fuel n : Nat) : natToChars (fuel + 1) n ≠ [] := by
  rw [natToChars]
  split <;> simp

lemma natToChars_all_digit : ∀ fuel n, n < 10 ^ fuel →
    (natToChars fuel n).all Char.isDigit = true := by
  intro fuel
  induction fuel with
  | zero => intro n h; rfl
  | succ fuel ih =>
    intro n h
    by_cases h10 : n < 10
    · rw [natToChars, if_pos h10]
      simp [digitChar_isDigit n h10]
    · rw [natToChars, if_neg h10]
      have hdiv : n / 10 < 10 ^ fuel :=
        Nat.div_lt_of_lt_mul (by rw [pow_succ] at h; omega)
      simp [List.all_append, ih _ hdiv,
        digitChar_isDigit (n % 10) (Nat.mod_lt _ (by norm_num))]

lemma foldl_natToChars : ∀ fuel n pre, n < 10 ^ fuel →
    (natToChars fuel n).foldl (fun a c => a * 10 + digitVal c) pre =
      pre * 10 ^ (natToChars fuel n).length + n := by
  intro fuel
  induction fuel with
  | zero =>
    intro n pre h
    have hn : n = 0 := by simpa using h
    subst hn
    simp [natToChars]
  | succ fuel ih =>
    intro n pre h
    by_cases h10 : n < 10
    · rw [natToChars, if_pos h10]
      simp [digitVal_digitChar n h10]
    · rw [natToChars, if_neg h10]
      have hdiv : n / 10 < 10 ^ fuel :=
        Nat.div_lt_of_lt_mul (by rw [pow_succ] at h; omega)
      rw [List.foldl_append, ih (n / 10) pre hdiv]
      simp only [List.foldl_cons, List.foldl_nil, List.length_append, List.length_cons,
        List.length_nil, digitVal_digitChar (n % 10) (Nat.mod_lt _ (by norm_num))]
      have hmod := Nat.div_add_mod n 10
      generalize (natToChars fuel (n / 10)).length = L
      rw [pow_succ]
      generalize (10 : Nat) ^ L = M
      ring_nf
      omega

lemma parseDigitsAux_digits : ∀ (l : List Char) rest acc, l.all Char.isDigit = true →
    parseDigitsAux acc (l ++ rest) =
      parseDigitsAux (l.foldl (fun a c => a * 10 + digitVal c) acc) rest := by
  intro l
  induction l with
  | nil => intro rest acc h; rfl
  | cons c t ih =>
    intro rest acc h
    simp only [List.all_cons, Bool.and_eq_true] at h
    rw [List.cons_append, parseDigitsAux, if_pos h.1, List.foldl_cons]
    exact ih rest _ h.2

lemma parseDigitsAux_stop (acc : Nat) (rest : List Char) (h : headNotDigit rest = true) :
    parseDigitsAux acc rest = (acc, rest) := by
  cases rest with
  | nil => rfl
  | cons c t =>
    have hc : c.isDigit = false := by simpa [headNotDigit] using h
    simp [parseDigitsAux, hc]

lemma natToChars_covers (n : Nat) : n < 10 ^ (n + 1) :=
  lt_of_lt_of_le (Nat.lt_pow_self (by norm_num) n)
    (Nat.pow_le_pow_right (by norm_num) (Nat.le_succ n))

lemma parseDigitsAux_natToChars (n : Nat) (rest : List Char) (h : headNotDigit rest = true) :
    parseDigitsAux 0 (natToChars (n + 1) n ++ rest) = (n, rest) := by
  rw [parseDigitsAux_digits _ _ _ (natToChars_all_digit _ _ (natToChars_covers n)),
    foldl_natToChars _ _ _ (natToChars_covers n), parseDigitsAux_stop _ _ h]
  simp

lemma natToChars_head_digit (n : Nat) :
    ∃ c t, natToChars (n + 1) n = c :: t ∧ c.isDigit = true := by
  have hall := natToChars_all_digit (n + 1) n (natToChars_covers n)
  have hne := natToChars_ne_nil n n
  cases hD : natToChars (n + 1) n with
  | nil => exact absurd hD hne
  | cons c t =>
    rw [hD] at hall
    simp only [List.all_cons, Bool.and_eq_true] at hall
    exact ⟨c, t, rfl, hall.1⟩

lemma parseNumber_renderInt (i : Int) (rest : List Char) (h : headNotDigit rest = true) :
    parseNumber (renderInt i ++ rest) = some (i, rest) := by
  by_cases hneg : i < 0
  · rw [renderInt, if_pos hneg]
    obtain ⟨c, t, hD, hc⟩ := natToChars_head_digit i.natAbs
    rw [List.cons_append, hD, List.cons_append, parseNumber.eq_def]
    simp only [eq_self_iff_true, if_true, hc, if_pos]
    rw [← List.cons_append, ← hD, parseDigitsAux_natToChars _ _ h]
    exact congrArg some (Prod.ext (by omega) rfl)
  · rw [renderInt, if_neg hneg]
    obtain ⟨c, t, hD, hc⟩ := natToChars_head_digit i.natAbs
    rw [hD, List.cons_append, parseNumber.eq_def]
    simp only [isDigit_ne c '-' hc (by decide), if_false, ite_false, hc, if_true, ite_true]
    rw [← List.cons_append, ← hD, parseDigitsAux_natToChars _ _ h]
    exact congrArg some (Prod.ext (by omega) rfl)

lemma char_toNat_valid (c : Char) :
    c.toNat < 0xd800 ∨ (0xdfff < c.toNat ∧ c.toNat < 0x110000) := c.valid

lemma char_eq_of_toNat (c : Char) (n : Nat) (h : c.toNat = n) : Char.ofNat n = c := by
  rw [← h]
  exact Char.ofNat_toNat c

lemma escapeChar_length_pos (c : Char) : 1 ≤ (escapeChar c).length := by
  rw [escapeChar]
  split_ifs <;> simp [hex4]

lemma escList_length_le : ∀ l : List Char, l.length ≤ (escList l).length := by
  intro l
  induction l with
  | nil => simp [escList]
  | cons c t ih =>
    rw [escList, List.length_append]
    have := escapeChar_length_pos c
    simp only [List.length_cons]
    omega

lemma parseStringBody_escape_surrogate (fuel : Nat) (cs : List Char) (c : Char)
    (hi lo : Nat) (hhi1 : 0xd800 ≤ hi) (hhi2 : hi < 0xdc00)
    (hlo1 : 0xdc00 ≤ lo) (hlo2 : lo ≤ 0xdfff)
    (hfinal : 65536 + (hi - 55296) * 1024 + (lo - 56320) = c.toNat) :
    parseStringBody (fuel + 1)
      (('\\' :: 'u' :: hex4 hi ++ '\\' :: 'u' :: hex4 lo) ++ cs) =
      match parseStringBody fuel cs with
      | none => none
      | some (l, rest) => some (c :: l, rest) := by
  have e1 := hexVal_digitChar (hi / 4096 % 16) (Nat.mod_lt _ (by norm_num))
  have e2 := hexVal_digitChar (hi / 256 % 16) (Nat.mod_lt _ (by norm_num))
  have e3 := hexVal_digitChar (hi / 16 % 16) (Nat.mod_lt _ (by norm_num))
  have e4 := hexVal_digitChar (hi % 16) (Nat.mod_lt _ (by norm_num))
  have f1 := hexVal_digitChar (lo / 4096 % 16) (Nat.mod_lt _ (by norm_num))
  have f2 := hexVal_digitChar (lo / 256 % 16) (Nat.mod_lt _ (by norm_num))
  have f3 := hexVal_digitChar (lo / 16 % 16) (Nat.mod_lt _ (by norm_num))
  have f4 := hexVal_digitChar (lo % 16) (Nat.mod_lt _ (by norm_num))
  have hhi : hi / 4096 % 16 * 4096 + hi / 256 % 16 * 256 + hi / 16 % 16 * 16 + hi % 16 =
      hi := by omega
  have hlo : lo / 4096 % 16 * 4096 + lo / 256 % 16 * 256 + lo / 16 % 16 * 16 + lo % 16 =
      lo := by omega
  have hc1 : ¬(hi < 55296 ∨ 57343 < hi) := by omega
  have hc := Char.ofNat_toNat c
  simp only [List.cons_append, List.append_assoc, List.nil_append, hex4]
  simp [parseStringBody, decodeEscape, hex4Val, e1, e2, e3, e4, f1, f2, f3, f4,
    hhi, hlo, hc1, hhi2, hlo1, hlo2, hfinal, hc]

lemma parseStringBody_escapeChar (c : Char) (fuel : Nat) (cs : List Char) :
    parseStringBody (fuel + 1) (escapeChar c ++ cs) =
      match parseStringBody fuel cs with
      | none => none
      | some (l, rest) => some (c :: l, rest) := by
  have hval := char_toNat_valid c
  rw [escapeChar]
  split_ifs with h1 h2 h3 h4 h5 h6 h7 h8 h9
  · subst h1
    simp [parseStringBody, decodeEscape]
  · subst h2
    simp [parseStringBody, decodeEscape]
  · simp [parseStringBody, h1, h2]
  · have hc : Char.ofNat 8 = c := char_eq_of_toNat c 8 h4
    simp [parseStringBody, decodeEscape]
    rw [hc]
  · have hc : '\t' = c := by
      rw [show ('\t' : Char) = Char.ofNat 9 by decide]
      exact char_eq_of_toNat c 9 h5
    simp [parseStringBody, decodeEscape]
    rw [hc]
  · have hc : '\n' = c := by
      rw [show ('\n' : Char) = Char.ofNat 10 by decide]
      exact char_eq_of_toNat c 10 h6
    simp [parseStringBody, decodeEscape]
    rw [hc]
  · have hc : Char.ofNat 12 = c := char_eq_of_toNat c 12 h7
    simp [parseStringBody, decodeEscape]
    rw [hc]
  · have hc : '\r' = c := by
      rw [show ('\r' : Char) = Char.ofNat 13 by decide]
      exact char_eq_of_toNat c 13 h8
    simp [parseStringBody, decodeEscape]
    rw [hc]
  · have e1 := hexVal_digitChar (c.toNat / 4096 % 16) (Nat.mod_lt _ (by norm_num))
    have e2 := hexVal_digitChar (c.toNat / 256 % 16) (Nat.mod_lt _ (by norm_num))
    have e3 := hexVal_digitChar (c.toNat / 16 % 16) (Nat.mod_lt _ (by norm_num))
    have e4 := hexVal_digitChar (c.toNat % 16) (Nat.mod_lt _ (by norm_num))
    have hcomb : c.toNat / 4096 % 16 * 4096 + c.toNat / 256 % 16 * 256 +
        c.toNat / 16 % 16 * 16 + c.toNat % 16 = c.toNat := by omega
    have hcond : c.toNat < 0xd800 ∨ 0xdfff < c.toNat := by
      rcases hval with h | ⟨h, _⟩
      · exact Or.inl h
      · exact Or.inr h
    have hc := Char.ofNat_toNat c
    simp [parseStringBody, decodeEscape, hex4, hex4Val, e1, e2, e3, e4, hcomb, hcond, hc]
  · exact parseStringBody_escape_surrogate fuel cs c _ _ (by omega) (by omega)
      (by omega) (by omega) (by omega)

lemma parseStringBody_escList : ∀ (l : List Char) fuel rest, l.length < fuel →
    parseStringBody fuel (escList l ++ ('"' :: rest)) = some (l, rest) := by
  intro l
  induction l with
  | nil =>
    intro fuel rest h
    cases fuel with
    | zero => omega
    | succ f => simp [escList, parseStringBody]
  | cons c t ih =>
    intro fuel rest h
    cases fuel with
    | zero => omega
    | succ f =>
      rw [escList, List.append_assoc, parseStringBody_escapeChar,
        ih f rest (by simpa using h)]

lemma skipWs_idem : ∀ cs, skipWs (skipWs cs) = skipWs cs := by
  intro cs
  induction cs with
  | nil => rfl
  | cons c t ih =>
    by_cases h : isWsChar c = true
    · rw [skipWs_cons_of_ws _ h, ih]
    · rw [skipWs_cons_of_not_ws _ (by simpa using h),
        skipWs_cons_of_not_ws _ (by simpa using h)]

lemma jsize_pos : ∀ v, 1 ≤ jsize v := by
  intro v
  cases v <;> simp [jsize]

lemma renderV_head_cons (v : JValue) (d : Nat) :
    ∃ c t, renderV v d = c :: t ∧ isWsChar c = false ∧ c ≠ ']' ∧ c ≠ '}' := by
  cases v with
  | num i =>
    by_cases hneg : i < 0
    · refine ⟨'-', _, by rw [renderV, renderInt, if_pos hneg], ?_, ?_, ?_⟩ <;> decide
    · obtain ⟨c, t, hD, hc⟩ := natToChars_head_digit i.natAbs
      refine ⟨c, t, ?_, isDigit_not_ws c hc, isDigit_ne c ']' hc (by decide),
        isDigit_ne c '}' hc (by decide)⟩
      rw [renderV, renderInt, if_neg hneg, hD]
  | bool b => cases b <;> (refine ⟨_, _, rfl, ?_, ?_, ?_⟩ <;> decide)
  | arr l => cases l <;> (refine ⟨_, _, rfl, ?_, ?_, ?_⟩ <;> decide)
  | obj l => cases l <;> (refine ⟨_, _, rfl, ?_, ?_, ?_⟩ <;> decide)
  | null => refine ⟨_, _, rfl, ?_, ?_, ?_⟩ <;> decide
  | str s => refine ⟨_, _, rfl, ?_, ?_, ?_⟩ <;> decide

lemma renderV_skipWs (v : JValue) (d : Nat) (rest : List Char) :
    skipWs (renderV v d ++ rest) = renderV v d ++ rest := by
  obtain ⟨c, t, hD, hws, -, -⟩ := renderV_head_cons v d
  rw [hD, List.cons_append, skipWs_cons_of_not_ws _ hws]

lemma skipWs_renderItems_single (x : JValue) (d : Nat) (X : List Char) :
    skipWs (renderItems [x] d ++ X) = renderV x d ++ X := by
  rw [renderItems, List.append_assoc, skipWs_indent, renderV_skipWs]

lemma skipWs_renderItems_cons (x y : JValue) (ys : List JValue) (d : Nat) (X : List Char) :
    skipWs (renderItems (x :: y :: ys) d ++ X) =
      renderV x d ++ (',' :: '\n' :: (renderItems (y :: ys) d ++ X)) := by
  rw [renderItems]
  simp only [List.append_assoc, List.cons_append]
  rw [skipWs_indent, renderV_skipWs]

lemma skipWs_renderFields_single (k : String) (v : JValue) (d : Nat) (X : List Char) :
    skipWs (renderFields [(k, v)] d ++ X) =
      '"' :: (escList k.data ++ ('"' :: (':' :: ' ' :: (renderV v d ++ X)))) := by
  rw [renderFields, renderString]
  simp only [List.append_assoc, List.cons_append, List.nil_append]
  rw [skipWs_indent, skipWs_cons_of_not_ws _ (by decide)]

lemma skipWs_renderFields_cons (k : String) (v : JValue) (f2 : String × JValue)
    (fs : List (String × JValue)) (d : Nat) (X : List Char) :
    skipWs (renderFields ((k, v) :: f2 :: fs) d ++ X) =
      '"' :: (escList k.data ++ ('"' :: (':' :: ' ' ::
        (renderV v d ++ (',' :: '\n' :: (renderFields (f2 :: fs) d ++ X)))))) := by
  rw [renderFields, renderString]
  simp only [List.append_assoc, List.cons_append, List.nil_append]
  rw [skipWs_indent, skipWs_cons_of_not_ws _ (by decide)]

lemma parse_render_all : ∀ fuel,
    (∀ v d cs rest, jsize v ≤ fuel → headNotDigit rest = true →
      skipWs cs = renderV v d ++ rest → parseValue fuel cs = some (v, rest)) ∧
    (∀ l d cs rest, l ≠ [] → jsizeL l ≤ fuel →
      skipWs cs = skipWs (renderItems l (d + 1) ++ ('\n' :: (indentChars d ++ (']' :: rest)))) →
      parseItems fuel cs = some (l, rest)) ∧
    (∀ l d cs rest, l ≠ [] → jsizeF l ≤ fuel →
      skipWs cs = skipWs (renderFields l (d + 1) ++ ('\n' :: (indentChars d ++ ('}' :: rest)))) →
      parseFields fuel cs = some (l, rest)) := by
  intro fuel
  induction fuel with
  | zero =>
    refine ⟨?_, ?_, ?_⟩
    · intro v d cs rest hsz hnd hcs
      have := jsize_pos v
      omega
    · intro l d cs rest hne hsz hcs
      cases l with
      | nil => exact absurd rfl hne
      | cons x t =>
        have := jsize_pos x
        rw [jsizeL] at hsz
        omega
    · intro l d cs rest hne hsz hcs
      cases l with
      | nil => exact absurd rfl hne
      | cons f t =>
        obtain ⟨k, v⟩ := f
        have := jsize_pos v
        rw [jsizeF] at hsz
        omega
  | succ fuel ih =>
    obtain ⟨ihV, ihA, ihF⟩ := ih
    have hLV : ∀ v d cs rest, jsize v ≤ fuel + 1 → headNotDigit rest = true →
        skipWs cs = renderV v d ++ rest → parseValue (fuel + 1) cs = some (v, rest) := by
      intro v d cs rest hsz hnd hcs
      cases v with
      | null =>
        rw [renderV] at hcs
        simp only [List.cons_append, List.nil_append] at hcs
        rw [parseValue, hcs]
        simp
      | bool b =>
        cases b with
        | true =>
          rw [renderV] at hcs
          simp only [List.cons_append, List.nil_append] at hcs
          rw [parseValue, hcs]
          simp
        | false =>
          rw [renderV] at hcs
          simp only [List.cons_append, List.nil_append] at hcs
          rw [parseValue, hcs]
          simp
      | num i =>
        rw [renderV] at hcs
        by_cases hneg : i < 0
        · rw [renderInt, if_pos hneg, List.cons_append] at hcs
          have hpn : parseNumber ('-' :: (natToChars (i.natAbs + 1) i.natAbs ++ rest)) =
              some (i, rest) := by
            have h := parseNumber_renderInt i rest hnd
            rw [renderInt, if_pos hneg, List.cons_append] at h
            exact h
          rw [parseValue, hcs]
          simp [hpn]
        · rw [renderInt, if_neg hneg] at hcs
          obtain ⟨ch, tt, hD, hchd⟩ := natToChars_head_digit i.natAbs
          rw [hD, List.cons_append] at hcs
          have hpn : parseNumber (ch :: (tt ++ rest)) = some (i, rest) := by
            have h := parseNumber_renderInt i rest hnd
            rw [renderInt, if_neg hneg, hD, List.cons_append] at h
            exact h
          rw [parseValue, hcs]
          simp [isDigit_ne ch 'n' hchd (by decide), isDigit_ne ch 't' hchd (by decide),
            isDigit_ne ch 'f' hchd (by decide), isDigit_ne ch '"' hchd (by decide),
            isDigit_ne ch '[' hchd (by decide), isDigit_ne ch '{' hchd (by decide), hpn]
      | str s =>
        rw [renderV, renderString] at hcs
        simp only [List.cons_append, List.append_assoc, List.nil_append] at hcs
        have hps : parseStringBody ((escList s.data ++ ('"' :: rest)).length + 1)
            (escList s.data ++ ('"' :: rest)) = some (s.data, rest) := by
          refine parseStringBody_escList s.data _ rest ?_
          have := escList_length_le s.data
          rw [List.length_append]
          omega
        simp only [List.length_append, List.length_cons] at hps
        rw [parseValue, hcs]
        simp [hps]
      | arr l =>
        cases l with
        | nil =>
          rw [renderV] at hcs
          simp only [List.cons_append, List.nil_append] at hcs
          rw [parseValue, hcs]
          simp [skipWs_cons_of_not_ws _ (show isWsChar ']' = false by decide)]
        | cons x xs =>
          rw [renderV] at hcs
          simp only [List.cons_append, List.append_assoc, List.nil_append] at hcs
          have hinner : skipWs ('\n' :: (renderItems (x :: xs) (d + 1) ++
              ('\n' :: (indentChars d ++ (']' :: rest))))) =
              skipWs (renderItems (x :: xs) (d + 1) ++
              ('\n' :: (indentChars d ++ (']' :: rest)))) := skipWs_newline _
          obtain ⟨c0, t0, hD0, hws0, hne1, hne2⟩ := renderV_head_cons x (d + 1)
          have hsk : ∃ t1, skipWs (renderItems (x :: xs) (d + 1) ++
              ('\n' :: (indentChars d ++ (']' :: rest)))) = c0 :: t1 := by
            cases xs with
            | nil => exact ⟨_, by rw [skipWs_renderItems_single, hD0, List.cons_append]⟩
            | cons y ys => exact ⟨_, by rw [skipWs_renderItems_cons, hD0, List.cons_append]⟩
          obtain ⟨t1, hsk⟩ := hsk
          have hA : parseItems fuel (c0 :: t1) = some (x :: xs, rest) := by
            refine ihA (x :: xs) d (c0 :: t1) rest (by simp) ?_ ?_
            · rw [jsize] at hsz
              omega
            · rw [skipWs_cons_of_not_ws _ hws0, hsk]
          rw [parseValue, hcs]
          simp [hinner, hsk, hne1, hA]
      | obj l =>
        cases l with
        | nil =>
          rw [renderV] at hcs
          simp only [List.cons_append, List.nil_append] at hcs
          rw [parseValue, hcs]
          simp [skipWs_cons_of_not_ws _ (show isWsChar '}' = false by decide)]
        | cons f fs =>
          obtain ⟨k, v⟩ := f
          rw [renderV] at hcs
          simp only [List.cons_append, List.append_assoc, List.nil_append] at hcs
          have hinner : skipWs ('\n' :: (renderFields ((k, v) :: fs) (d + 1) ++
              ('\n' :: (indentChars d ++ ('}' :: rest))))) =
              skipWs (renderFields ((k, v) :: fs) (d + 1) ++
              ('\n' :: (indentChars d ++ ('}' :: rest)))) := skipWs_newline _
          have hsk : ∃ t1, skipWs (renderFields ((k, v) :: fs) (d + 1) ++
              ('\n' :: (indentChars d ++ ('}' :: rest)))) = '"' :: t1 := by
            cases fs with
            | nil => exact ⟨_, by rw [skipWs_renderFields_single]⟩
            | cons f2 fs2 => exact ⟨_, by rw [skipWs_renderFields_cons]⟩
          obtain ⟨t1, hsk⟩ := hsk
          have hF : parseFields fuel ('"' :: t1) = some ((k, v) :: fs, rest) := by
            refine ihF ((k, v) :: fs) d ('"' :: t1) rest (by simp) ?_ ?_
            · rw [jsize] at hsz
              omega
            · rw [skipWs_cons_of_not_ws _ (by decide), hsk]
          rw [parseValue, hcs]
          simp [hinner, hsk, hF]
    refine ⟨hLV, ?_, ?_⟩
    · intro l d cs rest hne hsz hcs
      cases l with
      | nil => exact absurd rfl hne
      | cons x t =>
        cases t with
        | nil =>
          rw [skipWs_renderItems_single] at hcs
          have hV := hLV x (d + 1) cs ('\n' :: (indentChars d ++ (']' :: rest)))
            (by simp only [jsizeL] at hsz; omega) (by rfl) hcs
          have hskip : skipWs ('\n' :: (indentChars d ++ (']' :: rest))) = ']' :: rest := by
            rw [skipWs_newline, skipWs_indent, skipWs_cons_of_not_ws _ (by decide)]
          rw [parseItems, hV]
          simp [hskip]
        | cons y ys =>
          rw [skipWs_renderItems_cons] at hcs
          have hV := hLV x (d + 1) cs
            (',' :: '\n' :: (renderItems (y :: ys) (d + 1) ++
              ('\n' :: (indentChars d ++ (']' :: rest)))))
            (by simp only [jsizeL] at hsz; omega) (by rfl) hcs
          have hA2 : parseItems fuel ('\n' :: (renderItems (y :: ys) (d + 1) ++
              ('\n' :: (indentChars d ++ (']' :: rest))))) = some (y :: ys, rest) := by
            refine ihA (y :: ys) d _ rest (by simp) ?_ (skipWs_newline _)
            simp only [jsizeL] at hsz ⊢
            have := jsize_pos x
            omega
          have hsk2 : skipWs (',' :: '\n' :: (renderItems (y :: ys) (d + 1) ++
              ('\n' :: (indentChars d ++ (']' :: rest))))) =
              ',' :: '\n' :: (renderItems (y :: ys) (d + 1) ++
              ('\n' :: (indentChars d ++ (']' :: rest)))) :=
            skipWs_cons_of_not_ws _ (by decide)
          rw [parseItems, hV]
          simp [hsk2, hA2]
    · intro l d cs rest hne hsz hcs
      cases l with
      | nil => exact absurd rfl hne
      | cons f t =>
        obtain ⟨k, v⟩ := f
        cases t with
        | nil =>
          rw [skipWs_renderFields_single] at hcs
          have hps : parseStringBody ((escList k.data ++ ('"' :: (':' :: ' ' ::
              (renderV v (d + 1) ++ ('\n' :: (indentChars d ++ ('}' :: rest))))))).length + 1)
              (escList k.data ++ ('"' :: (':' :: ' ' ::
              (renderV v (d + 1) ++ ('\n' :: (indentChars d ++ ('}' :: rest))))))) =
              some (k.data, ':' :: ' ' ::
              (renderV v (d + 1) ++ ('\n' :: (indentChars d ++ ('}' :: rest))))) := by
            refine parseStringBody_escList k.data _ _ ?_
            have := escList_length_le k.data
            rw [List.length_append]
            omega
          have hV : parseValue (fuel + 1) (' ' :: (renderV v (d + 1) ++
              ('\n' :: (indentChars d ++ ('}' :: rest))))) =
              some (v, '\n' :: (indentChars d ++ ('}' :: rest))) := by
            refine hLV v (d + 1) _ _ ?_ (by rfl) ?_
            · simp only [jsizeF, jsizeL] at hsz
              omega
            · rw [skipWs_cons_of_ws _ (by decide), renderV_skipWs]
          have hskip : skipWs ('\n' :: (indentChars d ++ ('}' :: rest))) = '}' :: rest := by
            rw [skipWs_newline, skipWs_indent, skipWs_cons_of_not_ws _ (by decide)]
          simp only [List.length_append, List.length_cons] at hps
          have hsk2 : skipWs (':' :: ' ' :: (renderV v (d + 1) ++
              ('\n' :: (indentChars d ++ ('}' :: rest))))) =
              ':' :: ' ' :: (renderV v (d + 1) ++
              ('\n' :: (indentChars d ++ ('}' :: rest)))) :=
            skipWs_cons_of_not_ws _ (by decide)
          rw [parseFields, hcs]
          simp [hps, hsk2, hV, hskip]
        | cons f2 fs2 =>
          rw [skipWs_renderFields_cons] at hcs
          have hps : parseStringBody ((escList k.data ++ ('"' :: (':' :: ' ' ::
              (renderV v (d + 1) ++ (',' :: '\n' :: (renderFields (f2 :: fs2) (d + 1) ++
              ('\n' :: (indentChars d ++ ('}' :: rest))))))))).length + 1)
              (escList k.data ++ ('"' :: (':' :: ' ' ::
              (renderV v (d + 1) ++ (',' :: '\n' :: (renderFields (f2 :: fs2) (d + 1) ++
              ('\n' :: (indentChars d ++ ('}' :: rest))))))))) =
              some (k.data, ':' :: ' ' ::
              (renderV v (d + 1) ++ (',' :: '\n' :: (renderFields (f2 :: fs2) (d + 1) ++
              ('\n' :: (indentChars d ++ ('}' :: rest))))))) := by
            refine parseStringBody_escList k.data _ _ ?_
            have := escList_length_le k.data
            rw [List.length_append]
            omega
          have hV : parseValue (fuel + 1) (' ' :: (renderV v (d + 1) ++
              (',' :: '\n' :: (renderFields (f2 :: fs2) (d + 1) ++
              ('\n' :: (indentChars d ++ ('}' :: rest))))))) =
              some (v, ',' :: '\n' :: (renderFields (f2 :: fs2) (d + 1) ++
              ('\n' :: (indentChars d ++ ('}' :: rest))))) := by
            refine hLV v (d + 1) _ _ ?_ (by rfl) ?_
            · simp only [jsizeF] at hsz
              omega
            · rw [skipWs_cons_of_ws _ (by decide), renderV_skipWs]
          have hF2 : parseFields fuel ('\n' :: (renderFields (f2 :: fs2) (d + 1) ++
              ('\n' :: (indentChars d ++ ('}' :: rest))))) = some (f2 :: fs2, rest) := by
            refine ihF (f2 :: fs2) d _ rest (by simp) ?_ (skipWs_newline _)
            simp only [jsizeF] at hsz ⊢
            have := jsize_pos v
            omega
          simp only [List.length_append, List.length_cons] at hps
          have hsk2 : skipWs (':' :: ' ' :: (renderV v (d + 1) ++
              (',' :: '\n' :: (renderFields (f2 :: fs2) (d + 1) ++
              ('\n' :: (indentChars d ++ ('}' :: rest))))))) =
              ':' :: ' ' :: (renderV v (d + 1) ++
              (',' :: '\n' :: (renderFields (f2 :: fs2) (d + 1) ++
              ('\n' :: (indentChars d ++ ('}' :: rest)))))) :=
            skipWs_cons_of_not_ws _ (by decide)
          have hsk3 : skipWs (',' :: '\n' :: (renderFields (f2 :: fs2) (d + 1) ++
              ('\n' :: (indentChars d ++ ('}' :: rest))))) =
              ',' :: '\n' :: (renderFields (f2 :: fs2) (d + 1) ++
              ('\n' :: (indentChars d ++ ('}' :: rest)))) :=
            skipWs_cons_of_not_ws _ (by decide)
          rw [parseFields, hcs]
          simp [hps, hsk2, hV, hsk3, hF2]

lemma renderInt_length_pos (i : Int) : 1 ≤ (renderInt i).length := by
  rw [renderInt]
  split
  · simp
  · have := natToChars_ne_nil i.natAbs i.natAbs
    cases hD : natToChars (i.natAbs + 1) i.natAbs with
    | nil => exact absurd hD this
    | cons c t => simp [hD]

lemma jsizeL_le_renderItems (l : List JValue) (d : Nat)
    (h : ∀ x ∈ l, jsize x ≤ (renderV x d).length) :
    jsizeL l ≤ (renderItems l d).length := by
  induction l with
  | nil => simp [jsizeL, renderItems]
  | cons x t ih =>
    cases t with
    | nil =>
      have hx := h x (by simp)
      simp only [jsizeL, renderItems, List.length_append]
      omega
    | cons y t2 =>
      have hx := h x (by simp)
      have ht := ih (fun z hz => h z (List.mem_cons_of_mem _ hz))
      simp only [jsizeL, renderItems, List.length_append, List.length_cons] at ht ⊢
      omega

lemma jsizeF_le_renderFields (l : List (String × JValue)) (d : Nat)
    (h : ∀ p ∈ l, jsize p.2 ≤ (renderV p.2 d).length) :
    jsizeF l ≤ (renderFields l d).length := by
  induction l with
  | nil => simp [jsizeF, renderFields]
  | cons f t ih =>
    obtain ⟨k, v⟩ := f
    cases t with
    | nil =>
      have hx := h (k, v) (by simp)
      simp only [jsizeF, jsizeL, renderFields, List.length_append, List.length_cons] at hx ⊢
      omega
    | cons f2 t2 =>
      have hx := h (k, v) (by simp)
      have ht := ih (fun z hz => h z (List.mem_cons_of_mem _ hz))
      simp only [jsizeF, renderFields, List.length_append, List.length_cons] at hx ht ⊢
      omega

lemma jsize_le_renderV : ∀ N v, sizeOf v ≤ N → ∀ d, jsize v ≤ (renderV v d).length := by
  intro N
  induction N with
  | zero =>
    intro v hv d
    exfalso
    cases v <;> simp at hv
  | succ N ih =>
    intro v hv d
    cases v with
    | null => simp [jsize, renderV]
    | bool b => cases b <;> simp [jsize, renderV]
    | num i =>
      have := renderInt_length_pos i
      simp only [jsize, renderV]
      omega
    | str s => simp [jsize, renderV, renderString]
    | arr l =>
      cases l with
      | nil => simp [jsize, jsizeL, renderV]
      | cons x xs =>
        have hitems : jsizeL (x :: xs) ≤ (renderItems (x :: xs) (d + 1)).length := by
          refine jsizeL_le_renderItems _ _ ?_
          intro z hz
          refine ih z ?_ (d + 1)
          have hlt := List.sizeOf_lt_of_mem hz
          have hs : sizeOf (JValue.arr (x :: xs)) = 1 + sizeOf (x :: xs) := by simp
          omega
        simp only [jsize, renderV, List.length_cons, List.length_append]
        omega
    | obj l =>
      cases l with
      | nil => simp [jsize, jsizeF, renderV]
      | cons f fs =>
        have hfields : jsizeF (f :: fs) ≤ (renderFields (f :: fs) (d + 1)).length := by
          refine jsizeF_le_renderFields _ _ ?_
          intro z hz
          refine ih z.2 ?_ (d + 1)
          have hlt := List.sizeOf_lt_of_mem hz
          have hs : sizeOf (JValue.obj (f :: fs)) = 1 + sizeOf (f :: fs) := by simp
          have hz2 : sizeOf z.2 < sizeOf z := by
            obtain ⟨zk, zv⟩ := z
            simp
          omega
        simp only [jsize, renderV, List.length_cons, List.length_append]
        omega

lemma jsonParse_jsonDump (v : JValue) : jsonParse (jsonDump v) = some v := by
  have hsz : jsize v ≤ (renderV v 0).length := jsize_le_renderV (sizeOf v) v le_rfl 0
  have hskip : skipWs (renderV v 0) = renderV v 0 ++ [] := by
    have h := renderV_skipWs v 0 []
    rw [List.append_nil] at h
    rw [List.append_nil]
    exact h
  have h := (parse_render_all ((renderV v 0).length + 1)).1 v 0 (renderV v 0) []
    (by omega) (by rfl) hskip
  simp only [jsonParse, jsonDump]
  rw [h]
  rfl

lemma businessInfoJ_inj : Function.Injective businessInfoJ := by
  intro b1 b2 h
  cases b1
  cases b2
  simp only [businessInfoJ, JValue.obj.injEq, List.cons.injEq, Prod.mk.injEq,
    JValue.str.injEq, JValue.arr.injEq, and_true, true_and] at h
  simp only [BusinessInfo.mk.injEq]
  tauto

/-- C7: the Writer's output is valid JSON — our grammar's parser accepts it
in full — and parses back to exactly the array of the serialized records,
object for object and field for field (the encoding of records into JSON
objects is injective, so the parsed array determines the input records);
the filename passed in is the one used. -/
theorem C7_writer_round_trip (data : List BusinessInfo) (filename : String) :
    (save_to_json data filename).1 = filename ∧
    jsonParse (save_to_json data filename).2 =
      some (JValue.arr (data.map businessInfoJ)) ∧
    (∀ d2 : List BusinessInfo, data.map businessInfoJ = d2.map businessInfoJ →
      data = d2) := by
  refine ⟨rfl, ?_, ?_⟩
  · exact jsonParse_jsonDump (JValue.arr (data.map businessInfoJ))
  · intro d2 h
    exact List.map_injective_iff.mpr businessInfoJ_inj h

end YelpHH
